import Mathlib

/-!
# Verification of the vCard v4 text codec (pipobscure/vcard)

Shallow embedding of the codec core (`src/escape.ts`, `src/generator.ts`,
`src/property.ts`) and proofs of the specification claims.

JavaScript strings are modelled as `List Char` (sequences of Unicode scalar
values); this is faithful for all well-formed (surrogate-pair balanced)
strings, which covers every claim below.  A JavaScript global regex
`replace` with a single-character pattern is a character-wise expansion; a
global replace with a fixed two-character pattern is a left-to-right,
non-overlapping scan, modelled by two-step recursion.
-/

/-- JavaScript string, modelled as a list of Unicode scalar values. -/
abbrev JStr := List Char

/-- `s.replace(/X/g, repl)` for a single-character pattern `X`:
character-wise expansion. -/
def replaceAllChar (target : Char) (repl : JStr) : JStr → JStr
  | [] => []
  | c :: r => (if c = target then repl else [c]) ++ replaceAllChar target repl r

-- ── src/escape.ts ──────────────────────────────────────────────────────────

/-- The characters whose escapes `unescapeText` recognizes:
regex `/\\(\\|n|N|,|;)/g` in the source. -/
def unescRecognized : List Char := ['\\', 'n', 'N', ',', ';']

/-- The replacement the `unescapeText` callback yields for a recognized
escaped character. -/
def unescRepl (c : Char) : Char :=
  if c = 'n' ∨ c = 'N' then '\n' else c

/-- `unescapeText` (src/escape.ts:18-26): replace each occurrence of
backslash followed by one of `\ n N , ;` with the unescaped character; a
backslash followed by any other character is left in place (the regex does
not match there, so the scan resumes at the next character). -/
def unescapeText : JStr → JStr
  | [] => []
  | [c] => [c]
  | c :: d :: r =>
    if c = '\\' ∧ d ∈ unescRecognized then unescRepl d :: unescapeText r
    else c :: unescapeText (d :: r)

/-- `escapeText` (src/escape.ts:29-35): four sequential global replaces,
backslash first, then newline, comma, semicolon. -/
def escapeText (s : JStr) : JStr :=
  replaceAllChar ';' ['\\', ';']
    (replaceAllChar ',' ['\\', ',']
      (replaceAllChar '\n' ['\\', 'n']
        (replaceAllChar '\\' ['\\', '\\'] s)))

/-- `needsParamQuoting` (src/escape.ts:115-117): true iff the value contains
one of `; : , "`. -/
def needsParamQuoting (value : JStr) : Bool :=
  value.any (fun c => c = ';' ∨ c = ':' ∨ c = ',' ∨ c = '"')

/-- `quoteParamValue` (src/escape.ts:123-126): if quoting is needed, wrap in
double quotes, escaping internal backslash (first) and double quote. -/
def quoteParamValue (value : JStr) : JStr :=
  if needsParamQuoting value then
    '"' :: (replaceAllChar '"' ['\\', '"']
             (replaceAllChar '\\' ['\\', '\\'] value)) ++ ['"']
  else value

/-- `value.replace(/\\"/g, '"')`: left-to-right non-overlapping scan. -/
def unquoteUnescQuote : JStr → JStr
  | [] => []
  | [c] => [c]
  | c :: d :: r =>
    if c = '\\' ∧ d = '"' then '"' :: unquoteUnescQuote r
    else c :: unquoteUnescQuote (d :: r)

/-- `value.replace(/\\\\/g, '\\')`: left-to-right non-overlapping scan. -/
def unquoteUnescBackslash : JStr → JStr
  | [] => []
  | [c] => [c]
  | c :: d :: r =>
    if c = '\\' ∧ d = '\\' then '\\' :: unquoteUnescBackslash r
    else c :: unquoteUnescBackslash (d :: r)

/-- `unquoteParamValue` (src/escape.ts:132-137): strip surrounding double
quotes when present (length at least 2), unescaping internal `\"` then
`\\`. -/
def unquoteParamValue (value : JStr) : JStr :=
  if value.head? = some '"' ∧ value.getLast? = some '"' ∧ 2 ≤ value.length then
    unquoteUnescBackslash (unquoteUnescQuote ((value.drop 1).dropLast))
  else value

-- ── Escaper lemmas ─────────────────────────────────────────────────────────

theorem replaceAllChar_append (t : Char) (rep : JStr) (a b : JStr) :
    replaceAllChar t rep (a ++ b) =
      replaceAllChar t rep a ++ replaceAllChar t rep b := by
  induction a with
  | nil => rfl
  | cons c r ih => simp [replaceAllChar, ih]

/-- Character-wise expansion performed by `escapeText`. -/
def escExpand (c : Char) : JStr :=
  if c = '\\' then ['\\', '\\']
  else if c = '\n' then ['\\', 'n']
  else if c = ',' then ['\\', ',']
  else if c = ';' then ['\\', ';']
  else [c]

theorem escapeText_cons (c : Char) (r : JStr) :
    escapeText (c :: r) = escExpand c ++ escapeText r := by
  show replaceAllChar ';' ['\\', ';']
      (replaceAllChar ',' ['\\', ',']
        (replaceAllChar '\n' ['\\', 'n']
          ((if c = '\\' then ['\\', '\\'] else [c]) ++
            replaceAllChar '\\' ['\\', '\\'] r))) = _
  rw [replaceAllChar_append, replaceAllChar_append, replaceAllChar_append]
  congr 1
  by_cases h1 : c = '\\'
  · simp [h1, escExpand, replaceAllChar]
  · by_cases h2 : c = '\n'
    · simp [h1, h2, escExpand, replaceAllChar]
    · by_cases h3 : c = ','
      · simp [h1, h2, h3, escExpand, replaceAllChar]
      · by_cases h4 : c = ';'
        · simp [h1, h2, h3, h4, escExpand, replaceAllChar]
        · simp [h1, h2, h3, h4, escExpand, replaceAllChar]

theorem unescapeText_cons_ne (c : Char) (h : c ≠ '\\') (t : JStr) :
    unescapeText (c :: t) = c :: unescapeText t := by
  cases t with
  | nil => rfl
  | cons d u => simp [unescapeText, h]

theorem unescapeText_escExpand (c : Char) (t : JStr) :
    unescapeText (escExpand c ++ t) = c :: unescapeText t := by
  by_cases h1 : c = '\\'
  · simp [h1, escExpand, unescapeText, unescRecognized, unescRepl]
  · by_cases h2 : c = '\n'
    · simp [h1, h2, escExpand, unescapeText, unescRecognized, unescRepl]
    · by_cases h3 : c = ','
      · simp [h1, h2, h3, escExpand, unescapeText, unescRecognized, unescRepl]
      · by_cases h4 : c = ';'
        · simp [h1, h2, h3, h4, escExpand, unescapeText, unescRecognized,
            unescRepl]
        · have he : escExpand c = [c] := by simp [escExpand, h1, h2, h3, h4]
          rw [he]
          exact unescapeText_cons_ne c h1 t

/-- C2 main lemma: unescaping inverts escaping, character by character. -/
theorem unescape_escape (x : JStr) : unescapeText (escapeText x) = x := by
  induction x with
  | nil => rfl
  | cons c r ih => rw [escapeText_cons, unescapeText_escExpand, ih]

/-- C2. For every string `x`, `unescapeText (escapeText x) = x`: escaping
backslash first, then newline, comma, semicolon, is inverted exactly by
unescaping. -/
theorem escape_roundtrip (x : JStr) : unescapeText (escapeText x) = x :=
  unescape_escape x

/-- C3 counterexample: on the input backslash-`x`, `unescapeText` keeps the
backslash (the regex recognizes only the four escapes), so the claimed
output `"x"` (backslash dropped) is wrong. -/
theorem unescape_unknown_counterexample :
    unescapeText ['\\', 'x'] = ['\\', 'x'] ∧ unescapeText ['\\', 'x'] ≠ ['x'] := by
  constructor
  · rfl
  · decide

/-- C3 (amended). `unescapeText` recognizes exactly the escape sequences for
backslash, `n`/`N`, comma and semicolon; a backslash followed by any other
character is passed through unchanged together with that character (the
backslash is kept, not dropped). -/
theorem unescape_policy (c : Char) (r : JStr) :
    (c ∈ unescRecognized →
      unescapeText ('\\' :: c :: r) = unescRepl c :: unescapeText r) ∧
    (c ∉ unescRecognized →
      unescapeText ('\\' :: c :: r) = '\\' :: c :: unescapeText r) := by
  constructor
  · intro h
    simp [unescapeText, h]
  · intro h
    have hc : c ≠ '\\' := by
      intro hc; exact h (hc ▸ (by decide : ('\\' : Char) ∈ unescRecognized))
    have : unescapeText ('\\' :: c :: r) = '\\' :: unescapeText (c :: r) := by
      simp [unescapeText, h]
    rw [this, unescapeText_cons_ne c hc r]

/-- C3 witness: the amended policy evaluated on a recognized escape and on
an unknown escape. -/
theorem unescape_policy_witness :
    unescapeText ['\\', 'n', 'a'] = '\n' :: unescapeText ['a'] ∧
    unescapeText ['\\', 'x', 'a'] = '\\' :: 'x' :: unescapeText ['a'] :=
  ⟨(unescape_policy 'n' ['a']).1 (by decide),
   (unescape_policy 'x' ['a']).2 (by decide)⟩

-- ── Parameter-value quoting round-trip (C10) ──────────────────────────────

/-- Character-wise expansion performed inside `quoteParamValue`. -/
def quoteExpand (c : Char) : JStr :=
  if c = '\\' then ['\\', '\\']
  else if c = '"' then ['\\', '"'] else [c]

/-- Intermediate expansion after undoing the `\"` escapes only. -/
def quoteExpandMid (c : Char) : JStr :=
  if c = '\\' then ['\\', '\\'] else [c]

theorem quote_inner_eq_bind (v : JStr) :
    replaceAllChar '"' ['\\', '"'] (replaceAllChar '\\' ['\\', '\\'] v) =
      v.flatMap quoteExpand := by
  induction v with
  | nil => rfl
  | cons c r ih =>
    show replaceAllChar '"' ['\\', '"']
        ((if c = '\\' then ['\\', '\\'] else [c]) ++
          replaceAllChar '\\' ['\\', '\\'] r) = _
    rw [replaceAllChar_append, List.flatMap_cons, ← ih]
    congr 1
    by_cases h1 : c = '\\'
    · simp [h1, quoteExpand, replaceAllChar]
    · by_cases h2 : c = '"'
      · simp [h1, h2, quoteExpand, replaceAllChar]
      · simp [h1, h2, quoteExpand, replaceAllChar]

theorem bind_quoteExpand_head (v : JStr) :
    (v.flatMap quoteExpand).head? ≠ some '"' := by
  cases v with
  | nil => simp
  | cons c r =>
    rw [List.flatMap_cons]
    by_cases h1 : c = '\\'
    · simp [h1, quoteExpand]
    · by_cases h2 : c = '"'
      · simp [h1, h2, quoteExpand]
      · simp [h1, h2, quoteExpand]

theorem unquoteUnescQuote_cons_ne (c : Char) (h : c ≠ '\\') (t : JStr) :
    unquoteUnescQuote (c :: t) = c :: unquoteUnescQuote t := by
  cases t with
  | nil => rfl
  | cons d u => simp [unquoteUnescQuote, h]

theorem unquoteUnescQuote_cons_bs (t : JStr) (h : t.head? ≠ some '"') :
    unquoteUnescQuote ('\\' :: t) = '\\' :: unquoteUnescQuote t := by
  cases t with
  | nil => rfl
  | cons d u =>
    have hd : d ≠ '"' := by simpa using h
    simp [unquoteUnescQuote, hd]

theorem unquoteUnescBackslash_cons_ne (c : Char) (h : c ≠ '\\') (t : JStr) :
    unquoteUnescBackslash (c :: t) = c :: unquoteUnescBackslash t := by
  cases t with
  | nil => rfl
  | cons d u => simp [unquoteUnescBackslash, h]

theorem unquoteUnescQuote_bind (v : JStr) :
    unquoteUnescQuote (v.flatMap quoteExpand) = v.flatMap quoteExpandMid := by
  induction v with
  | nil => rfl
  | cons c r ih =>
    rw [List.flatMap_cons, List.flatMap_cons]
    by_cases h1 : c = '\\'
    · have he : quoteExpand c = ['\\', '\\'] := by simp [quoteExpand, h1]
      have hm : quoteExpandMid c = ['\\', '\\'] := by simp [quoteExpandMid, h1]
      rw [he, hm]
      show unquoteUnescQuote ('\\' :: '\\' :: r.flatMap quoteExpand) = _
      have step1 : unquoteUnescQuote ('\\' :: '\\' :: r.flatMap quoteExpand) =
          '\\' :: unquoteUnescQuote ('\\' :: r.flatMap quoteExpand) := by
        simp [unquoteUnescQuote]
      rw [step1, unquoteUnescQuote_cons_bs _ (bind_quoteExpand_head r), ih]
      rfl
    · by_cases h2 : c = '"'
      · have he : quoteExpand c = ['\\', '"'] := by simp [quoteExpand, h1, h2]
        have hm : quoteExpandMid c = [c] := by simp [quoteExpandMid, h1]
        rw [he, hm, h2]
        show unquoteUnescQuote ('\\' :: '"' :: r.flatMap quoteExpand) = _
        simp [unquoteUnescQuote, ih]
      · have he : quoteExpand c = [c] := by simp [quoteExpand, h1, h2]
        have hm : quoteExpandMid c = [c] := by simp [quoteExpandMid, h1]
        rw [he, hm]
        show unquoteUnescQuote (c :: r.flatMap quoteExpand) = _
        rw [unquoteUnescQuote_cons_ne c h1, ih]
        rfl

theorem unquoteUnescBackslash_bind (v : JStr) :
    unquoteUnescBackslash (v.flatMap quoteExpandMid) = v := by
  induction v with
  | nil => rfl
  | cons c r ih =>
    rw [List.flatMap_cons]
    by_cases h1 : c = '\\'
    · have hm : quoteExpandMid c = ['\\', '\\'] := by simp [quoteExpandMid, h1]
      rw [hm]
      show unquoteUnescBackslash ('\\' :: '\\' :: r.flatMap quoteExpandMid) = _
      simp [unquoteUnescBackslash, ih, h1]
    · have hm : quoteExpandMid c = [c] := by simp [quoteExpandMid, h1]
      rw [hm]
      show unquoteUnescBackslash (c :: r.flatMap quoteExpandMid) = _
      rw [unquoteUnescBackslash_cons_ne c h1, ih]

/-- C10. For every string `v`, unquoting inverts quoting: wrapping in double
quotes with internal backslash/quote escaping (done only when `v` contains
one of `; : , "`) is exactly undone by `unquoteParamValue`. -/
theorem quoteParamValue_roundtrip (v : JStr) :
    unquoteParamValue (quoteParamValue v) = v := by
  by_cases hq : needsParamQuoting v
  · rw [quoteParamValue, if_pos hq, quote_inner_eq_bind]
    rw [unquoteParamValue]
    rw [if_pos]
    · have hdrop : (('"' :: v.flatMap quoteExpand ++ ['"']).drop 1).dropLast =
          v.flatMap quoteExpand := by
        show ((v.flatMap quoteExpand ++ ['"'])).dropLast = v.flatMap quoteExpand
        exact List.dropLast_concat
      rw [hdrop, unquoteUnescQuote_bind, unquoteUnescBackslash_bind]
    · refine ⟨rfl, ?_, ?_⟩
      · show (('"' :: v.flatMap quoteExpand) ++ ['"']).getLast? = some '"'
        exact List.getLast?_concat _
      · simp
  · rw [quoteParamValue, if_neg hq, unquoteParamValue]
    rw [if_neg]
    intro ⟨hhead, _, _⟩
    have hmem : '"' ∈ v := by
      cases v with
      | nil => simp at hhead
      | cons c r =>
        simp at hhead
        simp [hhead]
    have : needsParamQuoting v := by
      simp [needsParamQuoting]
      exact ⟨'"', hmem, by simp⟩
    exact hq this

-- ── src/generator.ts: line folding (foldLine) ─────────────────────────────

/-- UTF-8 byte width of one code point, as computed in `foldLine`
(src/generator.ts:43): `cp > 0xffff ? 4 : cp > 0x7ff ? 3 : cp > 0x7f ? 2 : 1`. -/
def byteWidth (c : Char) : Nat :=
  if 0xffff < c.toNat then 4
  else if 0x7ff < c.toNat then 3
  else if 0x7f < c.toNat then 2
  else 1

/-- `Buffer.byteLength(line, 'utf8')`: total UTF-8 byte count. -/
def byteLength (l : JStr) : Nat := (l.map byteWidth).sum

/-- Number of leading characters of `l` that fit greedily in `budget`
bytes: the inner scanning loop of `foldLine` (src/generator.ts:41-47). -/
def greedyCount : JStr → Nat → Nat
  | [], _ => 0
  | c :: r, budget =>
    if byteWidth c ≤ budget then 1 + greedyCount r (budget - byteWidth c)
    else 0

/-- Segment length chosen per iteration of `foldLine`: at least one
character is force-included to avoid an infinite loop
(src/generator.ts:49-52). -/
def chunkLen (l : JStr) (budget : Nat) : Nat :=
  if greedyCount l budget = 0 then 1 else greedyCount l budget

/-- The folding loop of `foldLine` (src/generator.ts:36-57): first segment
budget 75 bytes, every later segment budget 74 bytes.  `fuel` bounds the
iteration count; `fuel = l.length` always suffices since every iteration
consumes at least one character. -/
def foldChunks : Nat → JStr → Nat → List JStr
  | 0, _, _ => []
  | _ + 1, [], _ => []
  | fuel + 1, c :: r, budget =>
    (c :: r).take (chunkLen (c :: r) budget) ::
      foldChunks fuel ((c :: r).drop (chunkLen (c :: r) budget)) 74

/-- `parts.join('\r\n ')` and similar: JavaScript `Array.prototype.join`. -/
def joinSep (sep : JStr) : List JStr → JStr
  | [] => []
  | [p] => p
  | p :: q :: rest => p ++ sep ++ joinSep sep (q :: rest)

/-- `foldLine` (src/generator.ts:25-60): emit unchanged (plus CRLF) when at
most 75 UTF-8 bytes, otherwise split into segments of at most 75/74 bytes
joined by CRLF-space, with a trailing CRLF. -/
def foldLine (line : JStr) : JStr :=
  if byteLength line ≤ 75 then line ++ ['\r', '\n']
  else joinSep ['\r', '\n', ' '] (foldChunks line.length line 75) ++ ['\r', '\n']

-- ── src/generator.ts: line unfolding (unfoldLines) ────────────────────────

/-- `input.replace(/\r\n/g, '\n')`: left-to-right non-overlapping scan. -/
def replaceCRLF : JStr → JStr
  | [] => []
  | [c] => [c]
  | c :: d :: r =>
    if c = '\r' ∧ d = '\n' then '\n' :: replaceCRLF r
    else c :: replaceCRLF (d :: r)

/-- `.replace(/\r/g, '\n')`: character-wise. -/
def crToLf (l : JStr) : JStr := l.map (fun c => if c = '\r' then '\n' else c)

/-- `.replace(/\n[ \t]/g, '')`: delete every newline immediately followed
by a space or tab (left-to-right non-overlapping scan). -/
def removeFolds : JStr → JStr
  | [] => []
  | [c] => [c]
  | c :: d :: r =>
    if c = '\n' ∧ (d = ' ' ∨ d = '\t') then removeFolds r
    else c :: removeFolds (d :: r)

/-- Prepend a character onto the first piece of a split result
(helper for modelling `String.prototype.split`). -/
def consFirst (c : Char) : List JStr → List JStr
  | [] => [[c]]
  | h :: t => (c :: h) :: t

/-- `.split('\n')`. -/
def splitOnNL : JStr → List JStr
  | [] => [[]]
  | c :: r => if c = '\n' then [] :: splitOnNL r else consFirst c (splitOnNL r)

/-- `unfoldLines` (src/generator.ts:316-324): normalize line endings,
delete fold indicators, split on newline, drop empty lines. -/
def unfoldLines (input : JStr) : List JStr :=
  (splitOnNL (removeFolds (crToLf (replaceCRLF input)))).filter
    (fun l => !l.isEmpty)

-- ── Folding round-trip lemmas (C1) ────────────────────────────────────────

theorem chunkLen_pos (l : JStr) (b : Nat) : 1 ≤ chunkLen l b := by
  unfold chunkLen
  split
  · exact Nat.le_refl 1
  · rename_i h
    exact Nat.one_le_iff_ne_zero.mpr h

theorem foldChunks_flatten (fuel : Nat) :
    ∀ (l : JStr) (b : Nat), l.length ≤ fuel → (foldChunks fuel l b).flatten = l := by
  induction fuel with
  | zero =>
    intro l b hl
    have : l = [] := List.length_eq_zero.mp (Nat.le_zero.mp hl)
    subst this
    rfl
  | succ fuel ih =>
    intro l b hl
    cases l with
    | nil => rfl
    | cons c r =>
      show (((c :: r).take (chunkLen (c :: r) b) ::
        foldChunks fuel ((c :: r).drop (chunkLen (c :: r) b)) 74)).flatten = c :: r
      rw [List.flatten_cons]
      have hc := chunkLen_pos (c :: r) b
      have hlen : ((c :: r).drop (chunkLen (c :: r) b)).length ≤ fuel := by
        rw [List.length_drop]
        simp only [List.length_cons] at hl ⊢
        omega
      rw [ih _ 74 hlen, List.take_append_drop]

theorem foldChunks_ne_nil (fuel : Nat) :
    ∀ (l : JStr) (b : Nat) (ch : JStr), ch ∈ foldChunks fuel l b → ch ≠ [] := by
  induction fuel with
  | zero => intro l b ch h; simp [foldChunks] at h
  | succ fuel ih =>
    intro l b ch h
    cases l with
    | nil => simp [foldChunks] at h
    | cons c r =>
      simp only [foldChunks, List.mem_cons] at h
      rcases h with h | h
      · subst h
        have := chunkLen_pos (c :: r) b
        intro habs
        have : ((c :: r).take (chunkLen (c :: r) b)).length = 0 := by
          rw [habs]; rfl
        rw [List.length_take] at this
        simp only [List.length_cons] at this
        omega
      · exact ih _ 74 ch h

theorem replaceCRLF_cons_ne (c : Char) (h : c ≠ '\r') (t : JStr) :
    replaceCRLF (c :: t) = c :: replaceCRLF t := by
  cases t with
  | nil => rfl
  | cons d u => simp [replaceCRLF, h]

theorem replaceCRLF_append_noCR (a t : JStr) (h : '\r' ∉ a) :
    replaceCRLF (a ++ t) = a ++ replaceCRLF t := by
  induction a with
  | nil => rfl
  | cons c r ih =>
    have hc : c ≠ '\r' := fun hc => h (hc ▸ List.mem_cons_self c r)
    have hr : '\r' ∉ r := fun hr => h (List.mem_cons_of_mem c hr)
    rw [List.cons_append, replaceCRLF_cons_ne c hc, ih hr]
    rfl

theorem removeFolds_cons_ne (c : Char) (h : c ≠ '\n') (t : JStr) :
    removeFolds (c :: t) = c :: removeFolds t := by
  cases t with
  | nil => rfl
  | cons d u => simp [removeFolds, h]

theorem removeFolds_append_noNL (a t : JStr) (h : '\n' ∉ a) :
    removeFolds (a ++ t) = a ++ removeFolds t := by
  induction a with
  | nil => rfl
  | cons c r ih =>
    have hc : c ≠ '\n' := fun hc => h (hc ▸ List.mem_cons_self c r)
    have hr : '\n' ∉ r := fun hr => h (List.mem_cons_of_mem c hr)
    rw [List.cons_append, removeFolds_cons_ne c hc, ih hr]
    rfl

theorem crToLf_noCR (l : JStr) (h : '\r' ∉ l) : crToLf l = l := by
  induction l with
  | nil => rfl
  | cons c r ih =>
    have hc : c ≠ '\r' := fun hc => h (hc ▸ List.mem_cons_self c r)
    have hr : '\r' ∉ r := fun hr => h (List.mem_cons_of_mem c hr)
    simp [crToLf, hc] at ih ⊢
    exact ih hr

theorem joinSep_mem (sep : JStr) (ps : List JStr) (c : Char)
    (h : c ∈ joinSep sep ps) : c ∈ sep ∨ ∃ p ∈ ps, c ∈ p := by
  induction ps with
  | nil => simp [joinSep] at h
  | cons p rest ih =>
    cases rest with
    | nil =>
      right
      exact ⟨p, List.mem_cons_self p [], h⟩
    | cons q rest2 =>
      simp only [joinSep, List.append_assoc, List.mem_append] at h
      rcases h with h | h | h
      · right; exact ⟨p, List.mem_cons_self p _, h⟩
      · left; exact h
      · rcases ih h with h | ⟨p', hp', hc⟩
        · left; exact h
        · right; exact ⟨p', List.mem_cons_of_mem p hp', hc⟩

theorem replaceCRLF_join (parts : List JStr)
    (h : ∀ p ∈ parts, '\r' ∉ p) :
    replaceCRLF (joinSep ['\r', '\n', ' '] parts ++ ['\r', '\n']) =
      joinSep ['\n', ' '] parts ++ ['\n'] := by
  induction parts with
  | nil => rfl
  | cons p rest ih =>
    cases rest with
    | nil =>
      show replaceCRLF (p ++ ['\r', '\n']) = p ++ ['\n']
      rw [replaceCRLF_append_noCR p _ (h p (List.mem_cons_self p [])), ]
      rfl
    | cons q rest2 =>
      show replaceCRLF (p ++ ['\r', '\n', ' '] ++ joinSep ['\r', '\n', ' '] (q :: rest2)
            ++ ['\r', '\n']) = p ++ ['\n', ' '] ++ joinSep ['\n', ' '] (q :: rest2) ++ ['\n']
      have hp : '\r' ∉ p := h p (List.mem_cons_self p _)
      have hrest : ∀ p' ∈ (q :: rest2), '\r' ∉ p' := fun p' hp' =>
        h p' (List.mem_cons_of_mem p hp')
      rw [List.append_assoc, List.append_assoc, replaceCRLF_append_noCR p _ hp]
      have : replaceCRLF (['\r', '\n', ' '] ++
          (joinSep ['\r', '\n', ' '] (q :: rest2) ++ ['\r', '\n'])) =
          ['\n', ' '] ++ (joinSep ['\n', ' '] (q :: rest2) ++ ['\n']) := by
        show replaceCRLF ('\r' :: '\n' :: ' ' ::
          (joinSep ['\r', '\n', ' '] (q :: rest2) ++ ['\r', '\n'])) = _
        rw [show replaceCRLF ('\r' :: '\n' :: ' ' ::
            (joinSep ['\r', '\n', ' '] (q :: rest2) ++ ['\r', '\n'])) =
            '\n' :: replaceCRLF (' ' ::
              (joinSep ['\r', '\n', ' '] (q :: rest2) ++ ['\r', '\n'])) from by
          simp [replaceCRLF]]
        rw [replaceCRLF_cons_ne ' ' (by decide), ih hrest]
        rfl
      rw [this]
      simp [List.append_assoc]

theorem removeFolds_join (parts : List JStr)
    (h : ∀ p ∈ parts, '\n' ∉ p) :
    removeFolds (joinSep ['\n', ' '] parts ++ ['\n']) =
      parts.flatten ++ ['\n'] := by
  induction parts with
  | nil => rfl
  | cons p rest ih =>
    cases rest with
    | nil =>
      show removeFolds (p ++ ['\n']) = (p ++ []) ++ ['\n']
      rw [removeFolds_append_noNL p _ (h p (List.mem_cons_self p []))]
      simp [removeFolds]
    | cons q rest2 =>
      show removeFolds (p ++ ['\n', ' '] ++ joinSep ['\n', ' '] (q :: rest2)
            ++ ['\n']) = (p :: q :: rest2).flatten ++ ['\n']
      have hp : '\n' ∉ p := h p (List.mem_cons_self p _)
      have hrest : ∀ p' ∈ (q :: rest2), '\n' ∉ p' := fun p' hp' =>
        h p' (List.mem_cons_of_mem p hp')
      rw [List.append_assoc, List.append_assoc, removeFolds_append_noNL p _ hp]
      have hstep : removeFolds (['\n', ' '] ++
          (joinSep ['\n', ' '] (q :: rest2) ++ ['\n'])) =
          removeFolds (joinSep ['\n', ' '] (q :: rest2) ++ ['\n']) := by
        show removeFolds ('\n' :: ' ' ::
          (joinSep ['\n', ' '] (q :: rest2) ++ ['\n'])) = _
        simp [removeFolds]
      rw [hstep, ih hrest]
      simp [List.flatten_cons, List.append_assoc]

theorem splitOnNL_append_one (L : JStr) (h : '\n' ∉ L) :
    splitOnNL (L ++ ['\n']) = [L, []] := by
  induction L with
  | nil => rfl
  | cons c r ih =>
    have hc : c ≠ '\n' := fun hc => h (hc ▸ List.mem_cons_self c r)
    have hr : '\n' ∉ r := fun hr => h (List.mem_cons_of_mem c hr)
    show splitOnNL (c :: (r ++ ['\n'])) = [c :: r, []]
    simp [splitOnNL, hc, ih hr, consFirst]

/-- The unfold pipeline applied to segments joined with CRLF-space and a
trailing CRLF recovers the concatenation of the segments. -/
theorem unfoldLines_joinSep (parts : List JStr)
    (hn : ∀ p ∈ parts, '\n' ∉ p) (hr : ∀ p ∈ parts, '\r' ∉ p)
    (hflat : parts.flatten ≠ []) :
    unfoldLines (joinSep ['\r', '\n', ' '] parts ++ ['\r', '\n']) =
      [parts.flatten] := by
  unfold unfoldLines
  rw [replaceCRLF_join parts hr]
  have hnocr : '\r' ∉ joinSep ['\n', ' '] parts ++ ['\n'] := by
    intro hmem
    rcases List.mem_append.mp hmem with hmem | hmem
    · rcases joinSep_mem _ _ _ hmem with hmem | ⟨p, hp, hmem⟩
      · simp at hmem
      · exact hr p hp hmem
    · simp at hmem
  rw [crToLf_noCR _ hnocr, removeFolds_join parts hn]
  have hflatn : '\n' ∉ parts.flatten := by
    intro hmem
    rcases List.mem_flatten.mp hmem with ⟨p, hp, hmem⟩
    exact hn p hp hmem
  rw [splitOnNL_append_one _ hflatn]
  cases h : parts.flatten with
  | nil => exact absurd h hflat
  | cons c r => rfl

/-- C1 (amended). For every nonempty single-line text `L` (no LF, no CR),
unfolding the folded form recovers exactly `[L]`. -/
theorem unfold_fold_roundtrip (L : JStr) (hne : L ≠ [])
    (hn : '\n' ∉ L) (hr : '\r' ∉ L) :
    unfoldLines (foldLine L) = [L] := by
  unfold foldLine
  split
  · have h1 : joinSep ['\r', '\n', ' '] [L] = L := rfl
    have := unfoldLines_joinSep [L]
      (by intro p hp; simp at hp; subst hp; exact hn)
      (by intro p hp; simp at hp; subst hp; exact hr)
      (by simpa using hne)
    rw [h1] at this
    simpa using this
  · have hflat : (foldChunks L.length L 75).flatten = L :=
      foldChunks_flatten L.length L 75 (Nat.le_refl _)
    have := unfoldLines_joinSep (foldChunks L.length L 75)
      (by
        intro p hp hmem
        exact hn (hflat ▸ List.mem_flatten.mpr ⟨p, hp, hmem⟩))
      (by
        intro p hp hmem
        exact hr (hflat ▸ List.mem_flatten.mpr ⟨p, hp, hmem⟩))
      (by rw [hflat]; exact hne)
    rw [hflat] at this
    exact this

/-- C1 counterexample: for the empty line the round trip yields `[]`, not
`[""]` — the unfolder drops blank lines — so the unrestricted claim is
false. -/
theorem unfold_fold_empty_counterexample :
    unfoldLines (foldLine []) ≠ [([] : JStr)] := by decide

/-- C1 witness: the round trip evaluated at concrete single-line texts of
UTF-8 byte lengths 74, 75, 76 and 150 (exact multiples of the budget fold
with no spurious empty trailing segment). -/
theorem unfold_fold_roundtrip_witness :
    unfoldLines (foldLine (List.replicate 74 'a')) = [List.replicate 74 'a'] ∧
    unfoldLines (foldLine (List.replicate 75 'a')) = [List.replicate 75 'a'] ∧
    unfoldLines (foldLine (List.replicate 76 'a')) = [List.replicate 76 'a'] ∧
    unfoldLines (foldLine (List.replicate 150 'a')) = [List.replicate 150 'a'] :=
  ⟨unfold_fold_roundtrip _ (by decide) (by decide) (by decide),
   unfold_fold_roundtrip _ (by decide) (by decide) (by decide),
   unfold_fold_roundtrip _ (by decide) (by decide) (by decide),
   unfold_fold_roundtrip _ (by decide) (by decide) (by decide)⟩

-- ── src/property.ts: date-and-or-time codec ───────────────────────────────

/-- JavaScript whitespace as matched by `\s` (ASCII part; the claims use no
exotic Unicode spaces). -/
def isJsSpace (c : Char) : Bool :=
  c = ' ' ∨ c = '\t' ∨ c = '\n' ∨ c = '\r' ∨ c = '\x0b' ∨ c = '\x0c'

/-- Decimal value of a digit run. -/
def digitsToNat (d : JStr) : Nat :=
  d.foldl (fun a c => 10 * a + (c.toNat - 48)) 0

/-- Leading decimal-digit run of a string, or `none` when it is empty
(the NaN case of `parseInt`). -/
def parseDigits (u : JStr) : Option Nat :=
  let d := u.takeWhile (fun c => c.isDigit)
  if d.isEmpty then none else some (digitsToNat d)

/-- JavaScript `parseInt(s, 10)`: skip leading whitespace, optional sign,
then leading decimal digits; `none` models `NaN`. -/
def parseIntJS (s : JStr) : Option Int :=
  let t := s.dropWhile isJsSpace
  if t.head? = some '-' then (parseDigits (t.drop 1)).map (fun n => -(n : Int))
  else if t.head? = some '+' then (parseDigits (t.drop 1)).map (fun n => (n : Int))
  else (parseDigits t).map (fun n => (n : Int))

/-- `DateAndOrTime` (src/types.ts): every component independently optional.
A `NaN` stored by `parseInt` in a component is modelled as `none` (no claim
distinguishes `NaN` from `undefined`). -/
structure DateAndOrTime where
  year : Option Int := none
  month : Option Int := none
  day : Option Int := none
  hour : Option Int := none
  minute : Option Int := none
  second : Option Int := none
  utcOffset : Option JStr := none
  hasTime : Bool := false
  deriving Repr, DecidableEq

/-- Does a six-character suffix match `[+-]\d\d:\d\d`? -/
def offsetShape6 (l : JStr) : Bool :=
  match l with
  | [a, b, c, d, e, f] =>
    (a = '+' ∨ a = '-') ∧ b.isDigit ∧ c.isDigit ∧ d = ':' ∧ e.isDigit ∧ f.isDigit
  | _ => false

/-- Does a five-character suffix match `[+-]\d\d\d\d`? -/
def offsetShape5 (l : JStr) : Bool :=
  match l with
  | [a, b, c, d, e] =>
    (a = '+' ∨ a = '-') ∧ b.isDigit ∧ c.isDigit ∧ d.isDigit ∧ e.isDigit
  | _ => false

/-- `tp.match(/([Zz]|[+-]\d{2}:?\d{2})$/)` (src/property.ts:763): the
end-anchored alternatives have lengths 6, 5 and 1 and are mutually
exclusive, so the leftmost match is the longest matching suffix. -/
def offsetMatch (tp : JStr) : Option JStr :=
  if 6 ≤ tp.length ∧ offsetShape6 (tp.drop (tp.length - 6)) then
    some (tp.drop (tp.length - 6))
  else if 5 ≤ tp.length ∧ offsetShape5 (tp.drop (tp.length - 5)) then
    some (tp.drop (tp.length - 5))
  else
    match tp.getLast? with
    | some c => if c = 'Z' ∨ c = 'z' then some [c] else none
    | none => none

/-- `parseDateAndOrTime` (src/property.ts:717-774).  Note that the source
checks `startsWith('--')` before `startsWith('---')`, so the `---DD`
branch modelled here is unreachable, exactly as in the source. -/
def parseDateAndOrTime (value : JStr) : Option DateAndOrTime :=
  if value.isEmpty then none
  else
    let v := value.filter (fun c => !(isJsSpace c))
    let tIdx := List.findIdx? (fun c => Char.toUpper c = 'T') v
    let datePart := match tIdx with | none => v | some i => v.take i
    let timePart := match tIdx with | none => [] | some i => v.drop (i + 1)
    let hasTime := !timePart.isEmpty
    let dateFields : Option Int × Option Int × Option Int :=
      if datePart.isEmpty then (none, none, none)
      else if ['-', '-'].isPrefixOf datePart then
        let d := (datePart.drop 2).filter (fun c => c ≠ '-')
        (none,
         (if 2 ≤ d.length then parseIntJS (d.take 2) else none),
         (if 4 ≤ d.length then parseIntJS ((d.drop 2).take 2) else none))
      else if ['-', '-', '-'].isPrefixOf datePart then
        (none, none, parseIntJS (datePart.drop 3))
      else
        let clean := datePart.filter (fun c => c ≠ '-')
        ((if 4 ≤ clean.length then parseIntJS (clean.take 4) else none),
         (if 6 ≤ clean.length then parseIntJS ((clean.drop 4).take 2) else none),
         (if 8 ≤ clean.length then parseIntJS ((clean.drop 6).take 2) else none))
    let timeFields : Option Int × Option Int × Option Int × Option JStr :=
      if timePart.isEmpty then (none, none, none, none)
      else
        let m := offsetMatch timePart
        let utcOffset := m.map (fun s => s.map Char.toUpper)
        let tp := match m with
          | some s => timePart.take (timePart.length - s.length)
          | none => timePart
        let clean := tp.filter (fun c => c ≠ ':')
        ((if 2 ≤ clean.length then parseIntJS (clean.take 2) else none),
         (if 4 ≤ clean.length then parseIntJS ((clean.drop 2).take 2) else none),
         (if 6 ≤ clean.length then parseIntJS ((clean.drop 4).take 2) else none),
         utcOffset)
    some {
      year := dateFields.1, month := dateFields.2.1, day := dateFields.2.2,
      hour := timeFields.1, minute := timeFields.2.1,
      second := timeFields.2.2.1, utcOffset := timeFields.2.2.2,
      hasTime := hasTime }

/-- `String(n)` for an integer-valued JavaScript number. -/
def intToJStr (i : Int) : JStr :=
  if i < 0 then '-' :: Nat.toDigits 10 (-i).toNat else Nat.toDigits 10 i.toNat

/-- `String(n).padStart(k, '0')`. -/
def padZeros (k : Nat) (s : JStr) : JStr :=
  List.replicate (k - s.length) '0' ++ s

/-- `x !== undefined ? String(x).padStart(2, '0') : ''`. -/
def optPad2 : Option Int → JStr
  | some n => padZeros 2 (intToJStr n)
  | none => []

/-- `formatDateAndOrTime` (src/property.ts:777-803). -/
def formatDateAndOrTime (dt : DateAndOrTime) : JStr :=
  let datePart :=
    if dt.year ≠ none ∨ dt.month ≠ none ∨ dt.day ≠ none then
      if dt.year = none ∧ dt.month ≠ none then
        ['-', '-'] ++ optPad2 dt.month ++
          (match dt.day with | some d => padZeros 2 (intToJStr d) | none => [])
      else if dt.year = none ∧ dt.day ≠ none then
        ['-', '-', '-'] ++ optPad2 dt.day
      else
        (match dt.year with | some y => padZeros 4 (intToJStr y) | none => []) ++
          optPad2 dt.month ++ optPad2 dt.day
    else []
  let timePart :=
    if dt.hasTime ∧ (dt.hour ≠ none ∨ dt.minute ≠ none ∨ dt.second ≠ none) then
      'T' :: (optPad2 dt.hour ++ optPad2 dt.minute ++ optPad2 dt.second ++
        (match dt.utcOffset with | some o => o | none => []))
    else []
  datePart ++ timePart

/-- C4. Formatting after parsing reproduces each of the five canonical
inputs exactly. -/
theorem date_roundtrip_canonical :
    (parseDateAndOrTime "19901231".data).map formatDateAndOrTime =
      some "19901231".data ∧
    (parseDateAndOrTime "--0315".data).map formatDateAndOrTime =
      some "--0315".data ∧
    (parseDateAndOrTime "1990".data).map formatDateAndOrTime =
      some "1990".data ∧
    (parseDateAndOrTime "20240101T120000Z".data).map formatDateAndOrTime =
      some "20240101T120000Z".data ∧
    (parseDateAndOrTime "20240601T083000+0500".data).map formatDateAndOrTime =
      some "20240601T083000+0500".data := by
  refine ⟨?_, ?_, ?_, ?_, ?_⟩ <;> decide

/-- C5. The `---DD` day-only branch is unreachable: `startsWith('--')` is
tested first and also matches `---`, so `"---15"` is parsed by the `--`
branch, which stores 15 in the month (the day stays unset) — the code
contradicts its own doc comment (`---DD` listed as supported,
src/property.ts:712) and the claim. -/
theorem parse_tripleDash_shadowed :
    (parseDateAndOrTime "---15".data).map (fun dt => (dt.year, dt.month, dt.day)) =
      some (none, some 15, none) ∧
    (parseDateAndOrTime "---15".data).map (fun dt => (dt.year, dt.month, dt.day)) ≠
      some (none, none, some 15) := by
  refine ⟨?_, ?_⟩ <;> decide

-- ── src/generator.ts: parameter parsing ───────────────────────────────────

/-- A parameter map entry value: scalar string or ordered list
(src/types.ts `ParameterMap = Map<string, string | string[]>`). -/
inductive ParamValue where
  | str (s : JStr)
  | list (ss : List JStr)
  deriving Repr, DecidableEq

/-- A JavaScript `Map` keyed by strings: insertion-ordered association list
with unique keys.  `set` updates in place, preserving position. -/
abbrev ParameterMap := List (JStr × ParamValue)

def ParameterMap.get (m : ParameterMap) (k : JStr) : Option ParamValue :=
  (m.find? (fun e => e.1 = k)).map (fun e => e.2)

def ParameterMap.set (m : ParameterMap) (k : JStr) (v : ParamValue) : ParameterMap :=
  if m.any (fun e => e.1 = k) then
    m.map (fun e => if e.1 = k then (k, v) else e)
  else m ++ [(k, v)]

def ParameterMap.del (m : ParameterMap) (k : JStr) : ParameterMap :=
  m.filter (fun e => e.1 ≠ k)

/-- `ParseWarning` (src/generator.ts:304-307). -/
structure ParseWarning where
  line : Option Nat := none
  message : JStr
  deriving Repr, DecidableEq

/-- `String.prototype.trim` (ASCII whitespace; no claim uses Unicode
spaces). -/
def trimJS (s : JStr) : JStr :=
  ((s.dropWhile isJsSpace).reverse.dropWhile isJsSpace).reverse

/-- `String.prototype.toUpperCase`, per code point (ASCII-faithful). -/
def toUpperJS (s : JStr) : JStr := s.map Char.toUpper

/-- `String.prototype.toLowerCase`, per code point (ASCII-faithful). -/
def toLowerJS (s : JStr) : JStr := s.map Char.toLower

/-- `splitParamString` (src/generator.ts:386-404): split on `;` while a
double quote toggles the quoted state; the final piece is pushed only when
nonempty. -/
def splitParamStringGo : JStr → Bool → JStr → List JStr → List JStr
  | [], _, current, parts => if current.isEmpty then parts else parts ++ [current]
  | c :: r, inQuotes, current, parts =>
    if c = '"' then splitParamStringGo r (!inQuotes) (current ++ [c]) parts
    else if c = ';' ∧ inQuotes = false then
      splitParamStringGo r inQuotes [] (parts ++ [current])
    else splitParamStringGo r inQuotes (current ++ [c]) parts

def splitParamString (s : JStr) : List JStr := splitParamStringGo s false [] []

/-- Test `/^[A-Z0-9-]+$/` on the upper-cased bare token. -/
def bareTokenOk (s : JStr) : Bool :=
  !s.isEmpty ∧ s.all (fun c => ('A' ≤ c ∧ c ≤ 'Z') ∨ ('0' ≤ c ∧ c ≤ '9') ∨ c = '-')

/-- Merge a value for `name` into the map: scalar on first occurrence, a
two-element list on the second, appended thereafter — never overwritten
(src/generator.ts:352-359 and 371-379). -/
def mergeParam (m : ParameterMap) (nm : JStr) (value : JStr) : ParameterMap :=
  match m.get nm with
  | none => m.set nm (.str value)
  | some (.list vs) => m.set nm (.list (vs ++ [value]))
  | some (.str v0) => m.set nm (.list [v0, value])

/-- One iteration of the `parseParameters` loop over split pieces
(src/generator.ts:345-380). -/
def parseParamPart (acc : ParameterMap × List ParseWarning) (part : JStr) :
    ParameterMap × List ParseWarning :=
  if (trimJS part).isEmpty then acc
  else
    match List.findIdx? (fun c => c = '=') part with
    | none =>
      let upperPart := toUpperJS (trimJS part)
      if bareTokenOk upperPart then
        (mergeParam acc.1 "TYPE".data (toLowerJS upperPart), acc.2)
      else
        (acc.1, acc.2 ++ [⟨none, "Ignoring malformed parameter: ".data ++ part⟩])
    | some eq =>
      let nm := toUpperJS (trimJS (part.take eq))
      let rawValue := trimJS (part.drop (eq + 1))
      (mergeParam acc.1 nm (unquoteParamValue rawValue), acc.2)

/-- `parseParameters` (src/generator.ts:338-383); returns the map together
with the warnings appended by this call. -/
def parseParameters (paramStr : JStr) : ParameterMap × List ParseWarning :=
  if paramStr.isEmpty then ([], [])
  else (splitParamString paramStr).foldl parseParamPart ([], [])

/-- C6 counterexample: the parameter map entry for TYPE in
`TYPE="work,voice";PREF=1` is the scalar string `work,voice`, not the
two-element list, because `parseParameters` never splits a quoted value on
commas (that happens only later, in the `type` accessor). -/
theorem parseParameters_quoted_counterexample :
    ParameterMap.get (parseParameters "TYPE=\"work,voice\";PREF=1".data).1
        "TYPE".data ≠
      some (.list ["work".data, "voice".data]) := by decide

/-- C6 (amended). Parsing `TYPE="work,voice";PREF=1` yields a scalar TYPE
entry `work,voice` (unquoted but not comma-split) and a scalar PREF entry
`1`; parsing `TYPE=work;TYPE=home` merges the duplicate name into the
two-element list `[work, home]` in encounter order (merged into a list the
second time the name appears, never overwritten). -/
theorem parseParameters_examples :
    ParameterMap.get (parseParameters "TYPE=\"work,voice\";PREF=1".data).1
        "TYPE".data = some (.str "work,voice".data) ∧
    ParameterMap.get (parseParameters "TYPE=\"work,voice\";PREF=1".data).1
        "PREF".data = some (.str "1".data) ∧
    ParameterMap.get (parseParameters "TYPE=work;TYPE=home".data).1
        "TYPE".data = some (.list ["work".data, "home".data]) := by
  refine ⟨?_, ?_, ?_⟩ <;> decide

-- ── src/generator.ts: content-line tokenizing and block assembly ──────────

/-- `RawProperty` (src/types.ts): one tokenized content line. -/
structure RawProperty where
  group : Option JStr := none
  name : JStr
  parameters : ParameterMap
  value : JStr
  deriving Repr, DecidableEq

/-- Index of the first colon not inside double quotes
(src/generator.ts:418-428). -/
def findColon : JStr → Bool → Nat → Option Nat
  | [], _, _ => none
  | c :: r, inQuotes, i =>
    if c = '"' then findColon r (!inQuotes) (i + 1)
    else if c = ':' ∧ inQuotes = false then some i
    else findColon r inQuotes (i + 1)

/-- `parseContentLine` (src/generator.ts:414-462): split on the first
unquoted colon, then the name-and-parameters part on the first `;`, then
group and name on the first `.`; lines with no colon or an empty name are
dropped with a warning. -/
def parseContentLine (line : JStr) : Option RawProperty × List ParseWarning :=
  match findColon line false 0 with
  | none =>
    (none, [⟨none, "Skipping line with no colon: ".data ++ line.take 40⟩])
  | some colonIdx =>
    let namePart := line.take colonIdx
    let value := line.drop (colonIdx + 1)
    let semiIdx := List.findIdx? (fun c => c = ';') namePart
    let nameAndGroup := match semiIdx with
      | none => namePart
      | some i => namePart.take i
    let paramStr : JStr := match semiIdx with
      | none => []
      | some i => namePart.drop (i + 1)
    let dotIdx := List.findIdx? (fun c => c = '.') nameAndGroup
    let group : Option JStr := match dotIdx with
      | none => none
      | some i => some (trimJS (nameAndGroup.take i))
    let nm := match dotIdx with
      | none => toUpperJS (trimJS nameAndGroup)
      | some i => toUpperJS (trimJS (nameAndGroup.drop (i + 1)))
    if nm.isEmpty then
      (none, [⟨none, "Skipping line with empty property name".data⟩])
    else
      let pw := parseParameters paramStr
      (some ⟨group, nm, pw.1, value⟩, pw.2)

/-- `RawVCard` (src/generator.ts:655-659).  The typed-property layer
(`instantiateProperty`, which wraps each tokenized line in a per-field
class and never fails) is outside the codec core; properties are kept here
as the tokenized `RawProperty` values, one per accepted content line, and
the typed layer's own warnings are not modelled. -/
structure RawVCard where
  version : JStr
  properties : List RawProperty
  warnings : List ParseWarning
  deriving Repr, DecidableEq

/-- One iteration of the `parseVCardBlock` loop (src/generator.ts:672-692):
state is (version, properties, warnings). -/
def blockStep (acc : JStr × List RawProperty × List ParseWarning) (line : JStr) :
    JStr × List RawProperty × List ParseWarning :=
  if "VERSION:".data.isPrefixOf (toUpperJS line) then
    (trimJS (line.drop 8), acc.2.1, acc.2.2)
  else
    match parseContentLine line with
    | (none, ws) => (acc.1, acc.2.1, acc.2.2 ++ ws)
    | (some raw, ws) =>
      if raw.name = "VERSION".data then
        (trimJS raw.value, acc.2.1, acc.2.2 ++ ws)
      else (acc.1, acc.2.1 ++ [raw], acc.2.2 ++ ws)

/-- `parseVCardBlock` (src/generator.ts:665-695): version defaults to 4.0;
`warnings` is the (mutable, shared) warning list handed in by the caller,
which the block parse appends to. -/
def parseVCardBlock (lines : List JStr) (warnings : List ParseWarning) :
    RawVCard :=
  let r := lines.foldl blockStep ("4.0".data, [], warnings)
  ⟨r.1, r.2.1, r.2.2⟩

/-- `ParseResult` (src/generator.ts:700-703). -/
structure ParseResult where
  rawVCards : List RawVCard
  warnings : List ParseWarning
  deriving Repr, DecidableEq

/-- State of the `parseVCardText` scan: inside-a-block flag, accumulated
lines of the open block, emitted blocks, and warnings. -/
structure AssemblerState where
  inVCard : Bool
  currentLines : List JStr
  rawVCards : List RawVCard
  warnings : List ParseWarning
  deriving Repr, DecidableEq

def unexpectedEndMsg : JStr := "Unexpected END:VCARD without BEGIN:VCARD".data

def unclosedMsg : JStr :=
  "Unclosed vCard (missing END:VCARD) — parsing anyway".data

/-- The line loop of `parseVCardText` (src/generator.ts:722-757), including
the end-of-input finalization of an unclosed block. -/
def vcardLoop : List JStr → Nat → AssemblerState → ParseResult
  | [], _, st =>
    if st.inVCard then
      let block := parseVCardBlock st.currentLines [⟨none, unclosedMsg⟩]
      ⟨st.rawVCards ++ [block], st.warnings ++ block.warnings⟩
    else ⟨st.rawVCards, st.warnings⟩
  | line :: rest, i, st =>
    let upper := trimJS (toUpperJS line)
    if upper = "BEGIN:VCARD".data then
      vcardLoop rest (i + 1) ⟨true, [], st.rawVCards, st.warnings⟩
    else if upper = "END:VCARD".data then
      if st.inVCard = false then
        vcardLoop rest (i + 1)
          ⟨st.inVCard, st.currentLines, st.rawVCards,
           st.warnings ++ [⟨some (i + 1), unexpectedEndMsg⟩]⟩
      else
        let block := parseVCardBlock st.currentLines []
        vcardLoop rest (i + 1)
          ⟨false, [], st.rawVCards ++ [block], st.warnings ++ block.warnings⟩
    else if st.inVCard then
      vcardLoop rest (i + 1)
        ⟨st.inVCard, st.currentLines ++ [line], st.rawVCards, st.warnings⟩
    else vcardLoop rest (i + 1) st

/-- `parseVCardText` (src/generator.ts:714-760). -/
def parseVCardText (input : JStr) : ParseResult :=
  vcardLoop (unfoldLines input) 0 ⟨false, [], [], []⟩

-- ── Block assembler lemmas (C7) ───────────────────────────────────────────

theorem replaceCRLF_crlf (z : JStr) :
    replaceCRLF ('\r' :: '\n' :: z) = '\n' :: replaceCRLF z := by
  simp [replaceCRLF]

theorem replaceCRLF_joinWire (lines : List JStr)
    (h : ∀ l ∈ lines, '\r' ∉ l) :
    replaceCRLF (joinSep ['\r', '\n'] lines ++ ['\r', '\n']) =
      joinSep ['\n'] lines ++ ['\n'] := by
  induction lines with
  | nil => rfl
  | cons p rest ih =>
    cases rest with
    | nil =>
      show replaceCRLF (p ++ ['\r', '\n']) = p ++ ['\n']
      rw [replaceCRLF_append_noCR p _ (h p (List.mem_cons_self p []))]
      rfl
    | cons q rest2 =>
      show replaceCRLF (p ++ ['\r', '\n'] ++ joinSep ['\r', '\n'] (q :: rest2)
            ++ ['\r', '\n']) =
          p ++ ['\n'] ++ joinSep ['\n'] (q :: rest2) ++ ['\n']
      have hp : '\r' ∉ p := h p (List.mem_cons_self p _)
      have hrest : ∀ p' ∈ (q :: rest2), '\r' ∉ p' := fun p' hp' =>
        h p' (List.mem_cons_of_mem p hp')
      rw [List.append_assoc, List.append_assoc, replaceCRLF_append_noCR p _ hp]
      have : replaceCRLF (['\r', '\n'] ++
          (joinSep ['\r', '\n'] (q :: rest2) ++ ['\r', '\n'])) =
          '\n' :: (joinSep ['\n'] (q :: rest2) ++ ['\n']) := by
        rw [show (['\r', '\n'] ++
            (joinSep ['\r', '\n'] (q :: rest2) ++ ['\r', '\n'])) =
            '\r' :: '\n' :: (joinSep ['\r', '\n'] (q :: rest2) ++ ['\r', '\n'])
          from rfl]
        rw [replaceCRLF_crlf, ih hrest]
      rw [this]
      simp [List.append_assoc]

theorem removeFolds_cons_nl (z : JStr)
    (h1 : z.head? ≠ some ' ') (h2 : z.head? ≠ some '\t') :
    removeFolds ('\n' :: z) = '\n' :: removeFolds z := by
  cases z with
  | nil => rfl
  | cons c r =>
    have hc1 : c ≠ ' ' := by simpa using h1
    have hc2 : c ≠ '\t' := by simpa using h2
    simp [removeFolds, hc1, hc2]

theorem joinSep_head_cons (sep : JStr) (c : Char) (r : JStr) (rest : List JStr)
    (t : JStr) :
    (joinSep sep ((c :: r) :: rest) ++ t).head? = some c := by
  cases rest with
  | nil => rfl
  | cons q rest2 => rfl

theorem removeFolds_joinWire (lines : List JStr)
    (h : ∀ l ∈ lines, l ≠ [] ∧ '\n' ∉ l ∧
      l.head? ≠ some ' ' ∧ l.head? ≠ some '\t') :
    removeFolds (joinSep ['\n'] lines ++ ['\n']) =
      joinSep ['\n'] lines ++ ['\n'] := by
  induction lines with
  | nil => rfl
  | cons p rest ih =>
    cases rest with
    | nil =>
      show removeFolds (p ++ ['\n']) = p ++ ['\n']
      rw [removeFolds_append_noNL p _ (h p (List.mem_cons_self p [])).2.1]
      rfl
    | cons q rest2 =>
      show removeFolds (p ++ ['\n'] ++ joinSep ['\n'] (q :: rest2) ++ ['\n']) =
          p ++ ['\n'] ++ joinSep ['\n'] (q :: rest2) ++ ['\n']
      have hp := h p (List.mem_cons_self p _)
      have hq := h q (List.mem_cons_of_mem p (List.mem_cons_self q _))
      have hrest : ∀ p' ∈ (q :: rest2), p' ≠ [] ∧ '\n' ∉ p' ∧
          p'.head? ≠ some ' ' ∧ p'.head? ≠ some '\t' := fun p' hp' =>
        h p' (List.mem_cons_of_mem p hp')
      rw [List.append_assoc, List.append_assoc, removeFolds_append_noNL p _ hp.2.1]
      obtain ⟨c, r, hcr⟩ : ∃ c r, q = c :: r := by
        cases q with
        | nil => exact absurd rfl hq.1
        | cons c r => exact ⟨c, r, rfl⟩
      have hhead : (joinSep ['\n'] (q :: rest2) ++ ['\n']).head? = some c := by
        rw [hcr]; exact joinSep_head_cons _ c r rest2 _
      have h1 : (joinSep ['\n'] (q :: rest2) ++ ['\n']).head? ≠ some ' ' := by
        rw [hhead]
        intro habs
        apply hq.2.2.1
        rw [hcr]
        simpa using habs
      have h2 : (joinSep ['\n'] (q :: rest2) ++ ['\n']).head? ≠ some '\t' := by
        rw [hhead]
        intro habs
        apply hq.2.2.2
        rw [hcr]
        simpa using habs
      rw [show (['\n'] ++ (joinSep ['\n'] (q :: rest2) ++ ['\n'])) =
          '\n' :: (joinSep ['\n'] (q :: rest2) ++ ['\n']) from rfl]
      rw [removeFolds_cons_nl _ h1 h2, ih hrest]

theorem splitOnNL_append_cons (a t : JStr) (h : '\n' ∉ a) :
    splitOnNL (a ++ '\n' :: t) = a :: splitOnNL t := by
  induction a with
  | nil => simp [splitOnNL]
  | cons c r ih =>
    have hc : c ≠ '\n' := fun hc => h (hc ▸ List.mem_cons_self c r)
    have hr : '\n' ∉ r := fun hr => h (List.mem_cons_of_mem c hr)
    show splitOnNL (c :: (r ++ '\n' :: t)) = (c :: r) :: splitOnNL t
    simp [splitOnNL, hc, ih hr, consFirst]

theorem splitOnNL_joinWire (p : JStr) (rest : List JStr)
    (h : ∀ l ∈ (p :: rest), '\n' ∉ l) :
    splitOnNL (joinSep ['\n'] (p :: rest) ++ ['\n']) = (p :: rest) ++ [[]] := by
  induction rest generalizing p with
  | nil => exact splitOnNL_append_one p (h p (List.mem_cons_self p []))
  | cons q rest2 ih =>
    show splitOnNL (p ++ ['\n'] ++ joinSep ['\n'] (q :: rest2) ++ ['\n']) = _
    have hp : '\n' ∉ p := h p (List.mem_cons_self p _)
    have hrest : ∀ l ∈ (q :: rest2), '\n' ∉ l := fun l hl =>
      h l (List.mem_cons_of_mem p hl)
    rw [List.append_assoc, List.append_assoc,
      show (['\n'] ++ (joinSep ['\n'] (q :: rest2) ++ ['\n'])) =
        '\n' :: (joinSep ['\n'] (q :: rest2) ++ ['\n']) from rfl,
      splitOnNL_append_cons p _ hp, ih q hrest]
    rfl

/-- A line as it appears on the wire and survives unfolding unchanged:
nonempty, free of LF and CR, and not starting with a fold indicator. -/
def wireLine (l : JStr) : Prop :=
  l ≠ [] ∧ '\n' ∉ l ∧ '\r' ∉ l ∧ l.head? ≠ some ' ' ∧ l.head? ≠ some '\t'

instance (l : JStr) : Decidable (wireLine l) := by
  unfold wireLine
  infer_instance

/-- Unfolding a CRLF-joined, CRLF-terminated sequence of wire lines
recovers exactly those lines. -/
theorem unfoldLines_wire (lines : List JStr) (h : ∀ l ∈ lines, wireLine l) :
    unfoldLines (joinSep ['\r', '\n'] lines ++ ['\r', '\n']) = lines := by
  unfold unfoldLines
  rw [replaceCRLF_joinWire lines (fun l hl => (h l hl).2.2.1)]
  have hnocr : '\r' ∉ joinSep ['\n'] lines ++ ['\n'] := by
    intro hmem
    rcases List.mem_append.mp hmem with hmem | hmem
    · rcases joinSep_mem _ _ _ hmem with hmem | ⟨p, hp, hmem⟩
      · simp at hmem
      · exact (h p hp).2.2.1 hmem
    · simp at hmem
  rw [crToLf_noCR _ hnocr]
  rw [removeFolds_joinWire lines (fun l hl =>
    ⟨(h l hl).1, (h l hl).2.1, (h l hl).2.2.2.1, (h l hl).2.2.2.2⟩)]
  cases lines with
  | nil => rfl
  | cons p rest =>
    rw [splitOnNL_joinWire p rest (fun l hl => (h l hl).2.1)]
    rw [List.filter_append]
    have h1 : (p :: rest).filter (fun l => !l.isEmpty) = p :: rest := by
      apply List.filter_eq_self.mpr
      intro a ha
      have := (h a ha).1
      simpa [List.isEmpty_iff] using this
    rw [h1]
    simp

/-- Not a begin/end marker (after upper-casing and trimming). -/
def notMarker (l : JStr) : Prop :=
  trimJS (toUpperJS l) ≠ "BEGIN:VCARD".data ∧
    trimJS (toUpperJS l) ≠ "END:VCARD".data

instance (l : JStr) : Decidable (notMarker l) := by
  unfold notMarker
  infer_instance

theorem vcardLoop_plain_step (l : JStr) (rest : List JStr) (i : Nat)
    (cl : List JStr) (rv : List RawVCard) (ws : List ParseWarning)
    (h : notMarker l) :
    vcardLoop (l :: rest) i ⟨true, cl, rv, ws⟩ =
      vcardLoop rest (i + 1) ⟨true, cl ++ [l], rv, ws⟩ := by
  show (if trimJS (toUpperJS l) = "BEGIN:VCARD".data then _
    else if trimJS (toUpperJS l) = "END:VCARD".data then _
    else if (true : Bool) then _ else _) = _
  rw [if_neg h.1, if_neg h.2]
  rfl

/-- Inside a block, a run of non-marker lines is accumulated and, at end of
input, finalized into exactly one block built from the accumulated lines
with the unclosed-block warning prepended to its warnings. -/
theorem vcardLoop_accum (ls : List JStr) :
    ∀ (i : Nat) (cl : List JStr) (rv : List RawVCard) (ws : List ParseWarning),
    (∀ l ∈ ls, notMarker l) →
    vcardLoop ls i ⟨true, cl, rv, ws⟩ =
      ⟨rv ++ [parseVCardBlock (cl ++ ls) [⟨none, unclosedMsg⟩]],
       ws ++ (parseVCardBlock (cl ++ ls) [⟨none, unclosedMsg⟩]).warnings⟩ := by
  induction ls with
  | nil =>
    intro i cl rv ws _
    show (⟨rv ++ [parseVCardBlock cl [⟨none, unclosedMsg⟩]],
      ws ++ (parseVCardBlock cl [⟨none, unclosedMsg⟩]).warnings⟩ : ParseResult) = _
    rw [List.append_nil]
  | cons l rest ih =>
    intro i cl rv ws h
    rw [vcardLoop_plain_step l rest i cl rv ws (h l (List.mem_cons_self l _))]
    rw [ih (i + 1) (cl ++ [l]) rv ws (fun l' hl' => h l' (List.mem_cons_of_mem l hl'))]
    rw [List.append_assoc]
    rfl

/-- C7. For every input built as an END marker with no matching BEGIN,
followed by a BEGIN marker whose block is never closed, the parser records
the unexpected-end warning and emits no block for the stray END, and emits
exactly one block — built from the accumulated lines — plus the
unclosed-block warning for the unterminated BEGIN. -/
theorem parse_end_and_unclosed (ls : List JStr)
    (h : ∀ l ∈ ls, wireLine l ∧ notMarker l) :
    parseVCardText (joinSep ['\r', '\n']
        ("END:VCARD".data :: "BEGIN:VCARD".data :: ls) ++ ['\r', '\n']) =
      ⟨[parseVCardBlock ls [⟨none, unclosedMsg⟩]],
       ⟨some 1, unexpectedEndMsg⟩ ::
         (parseVCardBlock ls [⟨none, unclosedMsg⟩]).warnings⟩ := by
  unfold parseVCardText
  rw [unfoldLines_wire _ (by
    intro l hl
    rcases List.mem_cons.mp hl with rfl | hl
    · decide
    rcases List.mem_cons.mp hl with rfl | hl
    · decide
    · exact (h l hl).1)]
  rw [show vcardLoop ("END:VCARD".data :: "BEGIN:VCARD".data :: ls) 0
      ⟨false, [], [], []⟩ =
      vcardLoop ("BEGIN:VCARD".data :: ls) 1
        ⟨false, [], [], [⟨some 1, unexpectedEndMsg⟩]⟩ from rfl]
  rw [show vcardLoop ("BEGIN:VCARD".data :: ls) 1
      ⟨false, [], [], [⟨some 1, unexpectedEndMsg⟩]⟩ =
      vcardLoop ls 2 ⟨true, [], [], [⟨some 1, unexpectedEndMsg⟩]⟩ from rfl]
  rw [vcardLoop_accum ls 2 [] [] _ (fun l hl => (h l hl).2)]
  rfl

/-- C7 witness: the theorem applied to a concrete one-line block. -/
theorem parse_end_and_unclosed_witness :
    parseVCardText (joinSep ['\r', '\n']
        ("END:VCARD".data :: "BEGIN:VCARD".data :: ["FN:Jane".data]) ++
        ['\r', '\n']) =
      ⟨[parseVCardBlock ["FN:Jane".data] [⟨none, unclosedMsg⟩]],
       ⟨some 1, unexpectedEndMsg⟩ ::
         (parseVCardBlock ["FN:Jane".data] [⟨none, unclosedMsg⟩]).warnings⟩ :=
  parse_end_and_unclosed ["FN:Jane".data] (by decide)

-- ── src/generator.ts: quoted-printable decoding (C9) ──────────────────────

/-- `encoded.replace(/=\r?\n/g, '')` (src/generator.ts:473): remove soft
line breaks (`=` directly followed by LF or CRLF). -/
def removeSoftBreaks : JStr → JStr
  | [] => []
  | [c] => [c]
  | [c, d] => if c = '=' ∧ d = '\n' then [] else c :: removeSoftBreaks [d]
  | c :: d :: e :: r =>
    if c = '=' ∧ d = '\n' then removeSoftBreaks (e :: r)
    else if c = '=' ∧ d = '\r' ∧ e = '\n' then removeSoftBreaks r
    else c :: removeSoftBreaks (d :: e :: r)

/-- `/^[0-9A-Fa-f]{2}$/` on a single character. -/
def isHexDigitJS (c : Char) : Bool :=
  c.isDigit ∨ ('A' ≤ c ∧ c ≤ 'F') ∨ ('a' ≤ c ∧ c ≤ 'f')

/-- Value of one hex digit. -/
def hexDigitVal (c : Char) : Nat :=
  if c.isDigit then c.toNat - 48
  else if 'A' ≤ c ∧ c ≤ 'F' then c.toNat - 55
  else c.toNat - 87

/-- UTF-8 encoding of one code point (`Buffer.from(ch, 'utf8')` for a
character below the astral plane; a lone surrogate half of a JavaScript
string — impossible in well-formed input — is not modelled). -/
def utf8EncodeChar (c : Char) : List Nat :=
  let n := c.toNat
  if n < 0x80 then [n]
  else if n < 0x800 then [0xC0 + n / 64, 0x80 + n % 64]
  else if n < 0x10000 then
    [0xE0 + n / 4096, 0x80 + (n / 64) % 64, 0x80 + n % 64]
  else
    [0xF0 + n / 262144, 0x80 + (n / 4096) % 64, 0x80 + (n / 64) % 64,
     0x80 + n % 64]

/-- One plainly-passed character of the quoted-printable scan: its ASCII
byte, or its UTF-8 bytes when above the ASCII range
(src/generator.ts:489-497). -/
def plainByte (c : Char) : List Nat :=
  if c.toNat < 128 then [c.toNat] else utf8EncodeChar c

/-- The byte-collection loop of `decodeQuotedPrintable`
(src/generator.ts:476-498): an `=` with two hex digits following (and
`i + 2 < length`) decodes to that octet; otherwise a character passes
through as its byte(s). -/
def collectBytes : JStr → List Nat
  | [] => []
  | [c] => plainByte c
  | [c, d] => plainByte c ++ collectBytes [d]
  | c :: d :: e :: r =>
    if c = '=' ∧ isHexDigitJS d ∧ isHexDigitJS e then
      (16 * hexDigitVal d + hexDigitVal e) :: collectBytes r
    else plainByte c ++ collectBytes (d :: e :: r)

/-- The Unicode replacement character emitted for invalid UTF-8. -/
def replChar : Char := Char.ofNat 0xFFFD

/-- Is this byte a UTF-8 continuation byte? -/
def isCont (x : Nat) : Bool := 0x80 ≤ x ∧ x ≤ 0xBF

/-- Valid second byte of a three-byte sequence with lead byte `b`. -/
def valid3Mid (b b2 : Nat) : Bool :=
  (b = 0xE0 ∧ 0xA0 ≤ b2 ∧ b2 ≤ 0xBF) ∨
  (b = 0xED ∧ 0x80 ≤ b2 ∧ b2 ≤ 0x9F) ∨
  (b ≠ 0xE0 ∧ b ≠ 0xED ∧ isCont b2)

/-- Valid second byte of a four-byte sequence with lead byte `b`. -/
def valid4Mid (b b2 : Nat) : Bool :=
  (b = 0xF0 ∧ 0x90 ≤ b2 ∧ b2 ≤ 0xBF) ∨
  (b = 0xF4 ∧ 0x80 ≤ b2 ∧ b2 ≤ 0x8F) ∨
  (b ≠ 0xF0 ∧ b ≠ 0xF4 ∧ isCont b2)

/-- `Buffer.from(bytes).toString('utf8')`: UTF-8 decoding with U+FFFD
replacement on invalid sequences (only valid sequences are exercised by the
claims, so the exact replacement behaviour on malformed input is not
load-bearing). -/
def utf8Decode : List Nat → JStr
  | [] => []
  | b :: r =>
    if b < 0x80 then Char.ofNat b :: utf8Decode r
    else if 0xC2 ≤ b ∧ b ≤ 0xDF then
      match r with
      | b2 :: r2 =>
        if isCont b2 then
          Char.ofNat ((b - 0xC0) * 64 + (b2 - 0x80)) :: utf8Decode r2
        else replChar :: utf8Decode (b2 :: r2)
      | [] => [replChar]
    else if 0xE0 ≤ b ∧ b ≤ 0xEF then
      match r with
      | b2 :: b3 :: r3 =>
        if valid3Mid b b2 ∧ isCont b3 then
          Char.ofNat ((b - 0xE0) * 4096 + (b2 - 0x80) * 64 + (b3 - 0x80)) ::
            utf8Decode r3
        else replChar :: utf8Decode (b2 :: b3 :: r3)
      | _ => [replChar]
    else if 0xF0 ≤ b ∧ b ≤ 0xF4 then
      match r with
      | b2 :: b3 :: b4 :: r4 =>
        if valid4Mid b b2 ∧ isCont b3 ∧ isCont b4 then
          Char.ofNat ((b - 0xF0) * 262144 + (b2 - 0x80) * 4096 +
            (b3 - 0x80) * 64 + (b4 - 0x80)) :: utf8Decode r4
        else replChar :: utf8Decode (b2 :: b3 :: b4 :: r4)
      | _ => [replChar]
    else replChar :: utf8Decode r

/-- `decodeQuotedPrintable` (src/generator.ts:471-501): strip soft breaks,
collect all octets, decode the whole sequence as UTF-8 at the end. -/
def decodeQuotedPrintable (encoded : JStr) : JStr :=
  utf8Decode (collectBytes (removeSoftBreaks encoded))

/-- Uppercase hex digit for a value below 16. -/
def hexDigitChar (n : Nat) : Char :=
  if n < 10 then Char.ofNat (48 + n) else Char.ofNat (55 + n)

/-- The `=XX` triplet encoding one octet (stating device for the claim's
"multi-byte character split across several =XX triplets"). -/
def qpTriplet (b : Nat) : JStr :=
  ['=', hexDigitChar (b / 16), hexDigitChar (b % 16)]

/-- A byte sequence written entirely as `=XX` triplets. -/
def qpTriplets (bs : List Nat) : JStr := bs.flatMap qpTriplet

-- ── Quoted-printable lemmas (C9) ──────────────────────────────────────────

theorem hexDigitChar_isHex : ∀ n, n < 16 → isHexDigitJS (hexDigitChar n) = true := by
  decide

theorem hexDigitChar_val : ∀ n, n < 16 → hexDigitVal (hexDigitChar n) = n := by
  decide

theorem hexDigitChar_ne_nl : ∀ n, n < 16 →
    hexDigitChar n ≠ '\n' ∧ hexDigitChar n ≠ '\r' := by decide

theorem qpTriplets_no_nl (bs : List Nat) (h : ∀ b ∈ bs, b < 256) :
    '\n' ∉ qpTriplets bs := by
  intro hmem
  rcases List.mem_flatMap.mp hmem with ⟨b, hb, hc⟩
  have hb256 : b < 256 := h b hb
  rcases List.mem_cons.mp hc with hc | hc
  · exact absurd hc.symm (by decide)
  rcases List.mem_cons.mp hc with hc | hc
  · exact (hexDigitChar_ne_nl (b / 16) (by omega)).1 hc.symm
  · simp at hc
    exact (hexDigitChar_ne_nl (b % 16) (by omega)).1 hc.symm

theorem removeSoftBreaks_id (l : JStr) (h : '\n' ∉ l) :
    removeSoftBreaks l = l := by
  induction l with
  | nil => rfl
  | cons c rest ih =>
    have hrest : '\n' ∉ rest := fun hr => h (List.mem_cons_of_mem c hr)
    cases rest with
    | nil => rfl
    | cons d rest2 =>
      have hd : d ≠ '\n' := fun hd =>
        hrest (hd ▸ List.mem_cons_self d rest2)
      cases rest2 with
      | nil =>
        show (if c = '=' ∧ d = '\n' then [] else c :: removeSoftBreaks [d]) = _
        rw [if_neg (fun hh => hd hh.2)]
        rfl
      | cons e rest3 =>
        have he : e ≠ '\n' := fun he =>
          hrest (he ▸ List.mem_cons_of_mem d (List.mem_cons_self e rest3))
        show (if c = '=' ∧ d = '\n' then _
          else if c = '=' ∧ d = '\r' ∧ e = '\n' then _
          else c :: removeSoftBreaks (d :: e :: rest3)) = _
        rw [if_neg (fun hh => hd hh.2), if_neg (fun hh => he hh.2.2),
          ih hrest]

theorem collectBytes_qpTriplets (bs : List Nat) (h : ∀ b ∈ bs, b < 256) :
    collectBytes (qpTriplets bs) = bs := by
  induction bs with
  | nil => rfl
  | cons b rest ih =>
    have hb : b < 256 := h b (List.mem_cons_self b _)
    have hd1 : b / 16 < 16 := by omega
    have hd2 : b % 16 < 16 := by omega
    have hrest : ∀ b' ∈ rest, b' < 256 := fun b' hb' =>
      h b' (List.mem_cons_of_mem b hb')
    show (if '=' = '=' ∧ isHexDigitJS (hexDigitChar (b / 16)) ∧
        isHexDigitJS (hexDigitChar (b % 16)) then
        (16 * hexDigitVal (hexDigitChar (b / 16)) +
          hexDigitVal (hexDigitChar (b % 16))) :: collectBytes (qpTriplets rest)
        else plainByte '=' ++ collectBytes (hexDigitChar (b / 16) ::
          hexDigitChar (b % 16) :: qpTriplets rest)) = b :: rest
    rw [if_pos ⟨rfl, hexDigitChar_isHex _ hd1, hexDigitChar_isHex _ hd2⟩,
      hexDigitChar_val _ hd1, hexDigitChar_val _ hd2]
    have hrec : 16 * (b / 16) + b % 16 = b := by omega
    rw [hrec, ih hrest]

/-- C9. Decoding a byte sequence written entirely as `=XX` triplets equals
UTF-8 decoding of the full collected byte sequence (so a multi-byte
character split across several triplets reassembles correctly), and the
input `Fr=C3=A4nk` decodes to the five-character text with the single
accented character U+00E4. -/
theorem decodeQP_accumulates (bs : List Nat) (h : ∀ b ∈ bs, b < 256) :
    decodeQuotedPrintable (qpTriplets bs) = utf8Decode bs ∧
    decodeQuotedPrintable "Fr=C3=A4nk".data = "Fränk".data := by
  constructor
  · unfold decodeQuotedPrintable
    rw [removeSoftBreaks_id _ (qpTriplets_no_nl bs h), collectBytes_qpTriplets bs h]
  · decide

/-- C9 witness: the theorem applied to the UTF-8 bytes of `Fä`. -/
theorem decodeQP_accumulates_witness :
    decodeQuotedPrintable (qpTriplets [0x46, 0xC3, 0xA4]) =
      utf8Decode [0x46, 0xC3, 0xA4] ∧
    decodeQuotedPrintable "Fr=C3=A4nk".data = "Fränk".data :=
  decodeQP_accumulates [0x46, 0xC3, 0xA4] (by decide)

-- ── src/generator.ts: vCard serialization and validation (C8) ─────────────

/-- `VCardError` (src/property.ts:40-48): message plus the offending
property name. -/
structure VCardError where
  message : JStr
  property : Option JStr := none
  deriving Repr, DecidableEq

/-- The observable interface of a `Property` instance as consumed by the
generator (src/property.ts:52-147): name, optional group, parameter map and
the serialized value `toContentLine()` returns.  `genderSex` models
`GenderProperty.value.sex` (consulted only when `name = GENDER`) and
`revInvalid` models a `RevProperty` holding an invalid `Date` (consulted
only when `name = REV`); the per-field typed subclasses add nothing else
the generator reads. -/
structure Property where
  name : JStr
  group : Option JStr := none
  params : ParameterMap := []
  contentLine : JStr := []
  genderSex : JStr := []
  revInvalid : Bool := false
  deriving Repr, DecidableEq

/-- The `pref` getter (src/property.ts:86-91): undefined when the PREF
parameter is absent, falsy (empty) or an array; otherwise `parseInt`,
undefined on NaN. -/
def Property.pref (p : Property) : Option Int :=
  match ParameterMap.get p.params "PREF".data with
  | some (.str v) => if v.isEmpty then none else parseIntJS v
  | _ => none

/-- `serializeParameters` (src/generator.ts:69-85): `NAME=v1,v2` with each
value quoted as needed; empty arrays are skipped; parts joined with `;`. -/
def serializeParameters (params : ParameterMap) : JStr :=
  joinSep [';'] (params.foldl (fun acc e =>
    match e.2 with
    | .list [] => acc
    | .list vs => acc ++ [e.1 ++ ['='] ++ joinSep [','] (vs.map quoteParamValue)]
    | .str v => acc ++ [e.1 ++ ['='] ++ quoteParamValue v]) [])

/-- `serializeProperty` (src/generator.ts:92-100): `[group.]NAME[;params]:`
followed by the content line, folded. -/
def serializeProperty (prop : Property) : JStr :=
  let namePart := match prop.group with
    | some g => g ++ ['.'] ++ prop.name
    | none => prop.name
  let paramStr := serializeParameters prop.params
  let sep : JStr := if paramStr.isEmpty then [] else ';' :: paramStr
  foldLine (namePart ++ sep ++ [':'] ++ prop.contentLine)

/-- `PROPERTY_ORDER` (src/generator.ts:155-191). -/
def propertyOrderTable : List (JStr × Nat) :=
  [("FN".data, 1), ("N".data, 2), ("NICKNAME".data, 3), ("GENDER".data, 4),
   ("BDAY".data, 5), ("ANNIVERSARY".data, 6), ("ORG".data, 7),
   ("TITLE".data, 8), ("ROLE".data, 9), ("EMAIL".data, 10), ("TEL".data, 11),
   ("ADR".data, 12), ("URL".data, 13), ("IMPP".data, 14), ("LANG".data, 15),
   ("TZ".data, 16), ("GEO".data, 17), ("PHOTO".data, 18), ("LOGO".data, 19),
   ("SOUND".data, 20), ("NOTE".data, 21), ("CATEGORIES".data, 22),
   ("SOURCE".data, 23), ("XML".data, 24), ("KEY".data, 25),
   ("FBURL".data, 26), ("CALADRURI".data, 27), ("CALURI".data, 28),
   ("MEMBER".data, 29), ("RELATED".data, 30), ("UID".data, 31),
   ("REV".data, 32), ("PRODID".data, 33), ("KIND".data, 34),
   ("CLIENTPIDMAP".data, 35)]

/-- `PROPERTY_ORDER[name] ?? 100`. -/
def propertyOrder (nm : JStr) : Nat :=
  match propertyOrderTable.find? (fun e => e.1 = nm) with
  | some e => e.2
  | none => 100

/-- Stable insertion preserving the input order of equal keys (JavaScript
`Array.prototype.sort` with comparator `oa - ob` is stable). -/
def insertStable (p : Property) : List Property → List Property
  | [] => [p]
  | q :: r =>
    if propertyOrder q.name < propertyOrder p.name then q :: insertStable p r
    else p :: q :: r

/-- `orderProperties` (src/generator.ts:193-199): stable sort by the
preferred output order. -/
def orderProperties (props : List Property) : List Property :=
  props.foldr insertStable []

/-- Does this property carry an out-of-range preference ordinal?
(the check of src/generator.ts:215-223; `Number.isInteger` cannot fail for
a value produced by `parseInt`). -/
def prefBad (p : Property) : Bool :=
  match p.pref with
  | some n => n < 1 ∨ 100 < n
  | none => false

/-- The message of the PREF validation error (src/generator.ts:218-220). -/
def prefMsg (p : Property) : JStr :=
  "PREF parameter on ".data ++ p.name ++
    " must be an integer between 1 and 100, got: ".data ++
    (match p.pref with | some n => intToJStr n | none => [])

/-- The GENDER sex values accepted by validation (src/generator.ts:230). -/
def validSex : List JStr :=
  ["M".data, "F".data, "O".data, "N".data, "U".data, []]

/-- Invalid GENDER property (src/generator.ts:226-238). -/
def genderBad (p : Property) : Bool :=
  p.name = "GENDER".data ∧ p.genderSex ∉ validSex

def genderMsg (p : Property) : JStr :=
  "Invalid GENDER sex value: ".data ++ p.genderSex ++
    ". Must be one of M, F, O, N, U".data

/-- Invalid REV property (src/generator.ts:241-248). -/
def revBad (p : Property) : Bool :=
  p.name = "REV".data ∧ p.revInvalid

/-- `validateForGeneration` (src/generator.ts:207-249): FN presence first,
then the PREF range of every property, then GENDER, then REV; the first
failure is reported. -/
def validateForGeneration (props : List Property) : Option VCardError :=
  if (props.filter (fun p => p.name = "FN".data)).isEmpty then
    some ⟨"Missing required property: FN".data, some "FN".data⟩
  else
    match props.find? prefBad with
    | some p => some ⟨prefMsg p, some p.name⟩
    | none =>
      match props.find? genderBad with
      | some p => some ⟨genderMsg p, some "GENDER".data⟩
      | none =>
        match props.find? revBad with
        | some _ => some ⟨"REV property contains invalid date".data,
            some "REV".data⟩
        | none => none

/-- `GenerateOptions` (src/generator.ts:104-117); `prodid` is not consulted
by `serializeVCard` and is omitted. -/
structure GenerateOptions where
  validate : Option Bool := none
  deriving Repr, DecidableEq

/-- The output assembly of `serializeVCard` (src/generator.ts:137-149):
BEGIN and VERSION lines, the ordered non-VERSION properties, END line. -/
def vcardOutput (properties : List Property) : JStr :=
  "BEGIN:VCARD\r\n".data ++ "VERSION:4.0\r\n".data ++
    ((orderProperties (properties.filter
      (fun p => p.name ≠ "VERSION".data))).map serializeProperty).flatten ++
    "END:VCARD\r\n".data

/-- `serializeVCard` (src/generator.ts:127-150): validate unless
`options.validate === false`, then emit; a validation failure is a thrown
`VCardError`, modelled as `Except.error`, and no output is produced. -/
def serializeVCard (properties : List Property) (options : GenerateOptions) :
    Except VCardError JStr :=
  if options.validate ≠ some false then
    match validateForGeneration properties with
    | some e => .error e
    | none => .ok (vcardOutput properties)
  else .ok (vcardOutput properties)

-- ── Validation lemmas (C8) ────────────────────────────────────────────────

/-- C8. With validation enabled (the default), a property list with no FN
property makes `serializeVCard` fail with a `VCardError` naming FN, and a
property list containing a property whose PREF ordinal is outside 1–100
fails with a `VCardError` naming that property; with `validate: false` the
checks are skipped and output is always produced. -/
theorem serializeVCard_validation (props : List Property) :
    ((∀ p ∈ props, p.name ≠ "FN".data) →
      serializeVCard props {} =
        .error ⟨"Missing required property: FN".data, some "FN".data⟩) ∧
    ((∃ p ∈ props, p.name = "FN".data) →
      ∀ p₀, props.find? prefBad = some p₀ →
      serializeVCard props {} = .error ⟨prefMsg p₀, some p₀.name⟩) ∧
    (∃ s, serializeVCard props ⟨some false⟩ = .ok s) := by
  refine ⟨?_, ?_, ?_⟩
  · intro h
    have hfil : props.filter (fun p => p.name = "FN".data) = [] := by
      rw [List.filter_eq_nil_iff]
      intro a ha
      simpa using h a ha
    unfold serializeVCard validateForGeneration
    rw [if_pos (by simp)]
    rw [hfil]
    rfl
  · rintro ⟨p, hp, hname⟩ p₀ hfind
    have hfil : (props.filter (fun p => p.name = "FN".data)).isEmpty = false := by
      have hmem : p ∈ props.filter (fun p => p.name = "FN".data) :=
        List.mem_filter.mpr ⟨hp, by simpa using hname⟩
      rcases hfl : props.filter (fun p => p.name = "FN".data) with _ | ⟨x, xs⟩
      · rw [hfl] at hmem; simp at hmem
      · rw [hfl]; rfl
    unfold serializeVCard validateForGeneration
    rw [if_pos (by simp)]
    rw [hfil]
    rw [hfind]
    rfl
  · exact ⟨vcardOutput props, by unfold serializeVCard; rw [if_neg (by simp)]⟩

/-- C8 witness: validation failures evaluated at a missing FN and at a
PREF of 200, and unchecked generation with validation disabled. -/
theorem serializeVCard_validation_witness :
    serializeVCard [] {} =
      .error ⟨"Missing required property: FN".data, some "FN".data⟩ ∧
    serializeVCard [⟨"FN".data, none, [], [], [], false⟩,
        ⟨"TEL".data, none, [("PREF".data, .str "200".data)], [], [], false⟩] {} =
      .error ⟨prefMsg ⟨"TEL".data, none, [("PREF".data, .str "200".data)],
        [], [], false⟩, some "TEL".data⟩ ∧
    (∃ s, serializeVCard [] ⟨some false⟩ = .ok s) :=
  ⟨(serializeVCard_validation []).1 (by decide),
   (serializeVCard_validation _).2.1 (by decide) _ (by decide),
   (serializeVCard_validation []).2.2⟩

/-- C8 counterexample: a PREF parameter value `abc` is not an integer in
1–100, yet `serializeVCard` with validation enabled succeeds — the `pref`
getter maps a `parseInt` NaN to undefined, so such a parameter is treated
as absent rather than as a violation. -/
theorem serializeVCard_prefNaN_counterexample :
    serializeVCard [⟨"FN".data, none, [], [], [], false⟩,
        ⟨"TEL".data, none, [("PREF".data, .str "abc".data)], [], [], false⟩] {} =
      .ok (vcardOutput [⟨"FN".data, none, [], [], [], false⟩,
        ⟨"TEL".data, none, [("PREF".data, .str "abc".data)], [], [], false⟩]) := by
  rfl
